import Mathlib

set_option autoImplicit false

/-
  Verification of the cross-storage repository (zendesk/cross-storage).

  Shallow embedding of:
  - the hub of dist/hub.js v0.6.1 (TTL codec: `_set`, `_get`) in `DistHub`;
  - the hub of lib/hub.js (permission engine `_permitted`, dispatcher
    `_listener`, operations including `_listen`/`_unlisten`) in `LibHub`;
  - the client of client.js v0.3.3 (`_request`, `_installListener`,
    `onConnect`, `close`) in `Client`, as a step function on an explicit
    client state, emitting observable actions (promise settlements and
    outbound posts).

  Machine integers of JavaScript are modelled as `Int` (all arithmetic the
  claims exercise — expiry timestamps, ttl addition, comparisons — stays well
  inside the exactly-representable range of IEEE doubles, so no overflow or
  rounding is modelled). JSON serialization round trips are modelled by
  storing the parsed representation directly: `JSON.parse (JSON.stringify x)`
  is the identity on JSON-representable values.
-/

namespace CrossStorage

/-- JSON-representable values (the results of a successful `JSON.parse`).
Numbers are restricted to integers, which covers every value the verified
claims exercise. -/
inductive JValue where
  | jnull
  | jbool (b : Bool)
  | jnum (n : Int)
  | jstr (s : String)
  | jarr (elems : List JValue)
  | jobj (fields : List (String × JValue))

/-- A JavaScript value that may additionally be `undefined` (e.g. `result[0]`
of an empty array, or the return value of a void operation). -/
inductive JSVal where
  | undef
  | val (v : JValue)

/-- First-match lookup in a string-keyed association list, mirroring property
access on a plain JS object or `localStorage.getItem` (absent key gives
`none`, the model of JS `null`/`undefined`). -/
def alookup {α : Type} : List (String × α) → String → Option α
  | [], _ => none
  | (k, v) :: rest, key => if k = key then some v else alookup rest key

/-- Removal of a key, mirroring `localStorage.removeItem` / `delete obj[k]`. -/
def aremove {α : Type} : List (String × α) → String → List (String × α)
  | [], _ => []
  | (k, v) :: rest, key =>
    if k = key then aremove rest key else (k, v) :: aremove rest key

/-- Overwriting insertion, mirroring `localStorage.setItem` / `obj[k] = v`.
The position of the key in the list is not observable by any verified claim
(only `getKeys` would expose it, and its order is store-defined). -/
def aset {α : Type} (l : List (String × α)) (key : String) (v : α) :
    List (String × α) :=
  (key, v) :: aremove l key

/-- Key-presence test, mirroring the JS `in` operator (a key whose slot holds
`null` is still present). -/
def ahas {α : Type} (l : List (String × α)) (key : String) : Bool :=
  (alookup l key).isSome

theorem alookup_aremove {α : Type} (l : List (String × α)) (key k : String) :
    alookup (aremove l key) k = if k = key then none else alookup l k := by
  induction l with
  | nil => simp [aremove, alookup]
  | cons p rest ih =>
    obtain ⟨k1, v1⟩ := p
    by_cases h1 : k1 = key
    · rw [aremove, if_pos h1, ih]
      by_cases h2 : k = key
      · rw [if_pos h2, if_pos h2]
      · rw [if_neg h2, if_neg h2, alookup,
            if_neg (fun (hh : k1 = k) => h2 (hh ▸ h1))]
    · rw [aremove, if_neg h1, alookup]
      by_cases h3 : k1 = k
      · rw [if_pos h3, if_neg (fun hh => h1 (h3.trans hh)), alookup, if_pos h3]
      · rw [if_neg h3, ih]
        by_cases h2 : k = key
        · rw [if_pos h2, if_pos h2]
        · rw [if_neg h2, if_neg h2, alookup, if_neg h3]

theorem alookup_aset_self {α : Type} (l : List (String × α)) (key : String)
    (v : α) : alookup (aset l key v) key = some v := by
  rw [aset, alookup, if_pos rfl]

theorem alookup_aset_ne {α : Type} (l : List (String × α)) (key k : String)
    (v : α) (h : k ≠ key) : alookup (aset l key v) k = alookup l k := by
  rw [aset, alookup, if_neg (fun hh => h hh.symm), alookup_aremove, if_neg h]

theorem ahas_aset {α : Type} (l : List (String × α)) (key k : String) (v : α)
    (h : ahas l k = true) : ahas (aset l key v) k = true := by
  by_cases hk : k = key
  · subst hk; simp [ahas, alookup_aset_self]
  · simpa [ahas, alookup_aset_ne l key k v hk] using h

theorem ahas_aset_self {α : Type} (l : List (String × α)) (key : String)
    (v : α) : ahas (aset l key v) key = true := by
  simp [ahas, alookup_aset_self]

/-- The final collapse shared by both hubs' `_get`:
`return (result.length > 1) ? result : result[0];` — an array for two or
more keys, the bare element for one key, `undefined` for none. -/
def collapse (rs : List JValue) : JSVal :=
  if 1 < rs.length then .val (.jarr rs)
  else
    match rs with
    | [] => .undef
    | r :: _ => .val r

namespace DistHub

/-
  Embedding of dist/hub.js v0.6.1: `CrossStorageHub._set` (lines 150-164) and
  `CrossStorageHub._get` (lines 175-196). The hub persists
  `JSON.stringify({value: ..., expire?: ...})` under each key; the store is
  modelled at the parsed level (a cell is the result of `JSON.parse` on the
  stored text, or `junk` when the text does not parse and `JSON.parse`
  throws). Cells of shapes other than the one `_set` writes are outside the
  model.
-/

/-- One stored localStorage slot: either the serialization of an
`{value, expire?}` object as written by `_set`, or text on which `JSON.parse`
throws a SyntaxError. -/
inductive Cell where
  | item (value : JValue) (expire : Option Int)
  | junk

/-- The hub's localStorage, keyed by user keys. -/
abbrev Store := List (String × Cell)

/-- The (engine-specific) message of the SyntaxError thrown by `JSON.parse`
on unparsable text; its exact content is not relevant to any claim. -/
def jsonParseError : String := "Unexpected token in JSON"

/-- Parameters of a `set` request: `{key, value, ttl?}`. The ttl is modelled
as an optional integer; `_set`'s `parseInt(ttl, 10) !== ttl` type check never
throws on an integer ttl, so the thrown `"ttl must be a number"` branch is
unreachable in the model and is not represented. -/
structure SetParams where
  key : String
  value : JValue
  ttl : Option Int

/-- Truthiness of `params.ttl` in `_set`'s `if (ttl)` tests: absent
(`undefined`) and `0` are falsy. -/
def ttlTruthy : Option Int → Bool
  | none => false
  | some n => n != 0

/-- Embedding of `CrossStorageHub._set` (dist/hub.js lines 150-164): stores
`{value: params.value}` and, when the ttl is truthy, adds
`expire: _now() + ttl`. -/
def distSet (now : Int) (store : Store) (p : SetParams) : Store :=
  aset store p.key
    (Cell.item p.value (if ttlTruthy p.ttl then some (now + p.ttl.getD 0) else none))

/-- The expiry test applied per key inside `_get`:
`item.expire && item.expire < _now()`. An absent `expire` field is
`undefined` (falsy), and `expire === 0` is falsy, so such items never
expire. -/
def expired (now : Int) : Option Int → Bool
  | none => false
  | some n => n != 0 && decide (n < now)

/-- Embedding of the loop of `CrossStorageHub._get` (dist/hub.js lines
181-193), carried out over the store with an accumulator of results in
reverse order. A `junk` cell makes `JSON.parse` throw: the loop aborts with
the SyntaxError, keeping the store mutations (expired-key removals) made so
far. An absent key gives `getItem = null` and `JSON.parse(null) = null`,
hence a pushed `null`. -/
def distGetLoop (now : Int) : Store → List String → List JValue →
    Store × Except String (List JValue)
  | store, [], acc => (store, .ok acc.reverse)
  | store, k :: ks, acc =>
    match alookup store k with
    | none => distGetLoop now store ks (JValue.jnull :: acc)
    | some Cell.junk => (store, .error jsonParseError)
    | some (Cell.item v e) =>
      if expired now e then distGetLoop now (aremove store k) ks (JValue.jnull :: acc)
      else distGetLoop now store ks (v :: acc)

/-- Embedding of `CrossStorageHub._get` (dist/hub.js lines 175-196): the
mutated store paired with either the collapsed result or the thrown
SyntaxError. -/
def distGet (now : Int) (store : Store) (keys : List String) :
    Store × Except String JSVal :=
  match distGetLoop now store keys [] with
  | (st, .ok rs) => (st, .ok (collapse rs))
  | (st, .error e) => (st, .error e)

/-- Specification-side description of what one key yields in `_get`, read off
the unmodified initial store: `null` for an absent or expired key, the
unwrapped value otherwise. (The `junk` branch is arbitrary; it is only ever
used under a no-junk hypothesis.) -/
def peek (now : Int) (store : Store) (k : String) : JValue :=
  match alookup store k with
  | none => .jnull
  | some Cell.junk => .jnull
  | some (Cell.item v e) => if expired now e then .jnull else v

/-- A no-junk hypothesis on the requested keys survives the removal of an
expired key during the `_get` loop. -/
theorem nojunk_aremove (store : Store) (k : String) (ks : List String)
    (h : ∀ x ∈ ks, alookup store x ≠ some Cell.junk) :
    ∀ x ∈ ks, alookup (aremove store k) x ≠ some Cell.junk := by
  intro x hx
  rw [alookup_aremove]
  by_cases hxk : x = k
  · simp [hxk]
  · rw [if_neg hxk]; exact h x hx

/-- Removing a key that the store holds as an expired item does not change the
per-key `_get` semantics of any key: the removed key read `null` before (it
was expired) and reads `null` after (it is absent). -/
theorem peek_aremove_expired (now : Int) (store : Store) (k : String)
    (v : JValue) (e : Option Int) (hlk : alookup store k = some (Cell.item v e))
    (hexp : expired now e = true) :
    peek now (aremove store k) = peek now store := by
  funext k1
  by_cases hk1 : k1 = k
  · subst hk1; simp [peek, alookup_aremove, hlk, hexp]
  · simp [peek, alookup_aremove, hk1]

/-- When no requested key holds unparsable text, the `_get` loop succeeds and
returns, positionally, the per-key values read off the initial store — the
mid-loop removals of expired keys never change a later iteration's result. -/
theorem distGetLoop_ok (now : Int) (keys : List String) :
    ∀ (store : Store) (acc : List JValue),
      (∀ k ∈ keys, alookup store k ≠ some Cell.junk) →
      (distGetLoop now store keys acc).2
        = .ok (acc.reverse ++ keys.map (peek now store)) := by
  induction keys with
  | nil => intro store acc _; simp [distGetLoop]
  | cons k ks ih =>
    intro store acc h
    have hk : alookup store k ≠ some Cell.junk := h k (by simp)
    have hks : ∀ x ∈ ks, alookup store x ≠ some Cell.junk :=
      fun x hx => h x (by simp [hx])
    rcases hlk : alookup store k with _ | c
    · rw [show distGetLoop now store (k :: ks) acc
            = distGetLoop now store ks (JValue.jnull :: acc) by
          simp [distGetLoop, hlk]]
      rw [ih store (JValue.jnull :: acc) hks]
      simp [peek, hlk]
    · cases c with
      | junk => exact absurd hlk hk
      | item v e =>
        cases hexp : expired now e with
        | true =>
          rw [show distGetLoop now store (k :: ks) acc
                = distGetLoop now (aremove store k) ks (JValue.jnull :: acc) by
              simp [distGetLoop, hlk, hexp]]
          rw [ih (aremove store k) (JValue.jnull :: acc)
                (nojunk_aremove store k ks hks)]
          rw [peek_aremove_expired now store k v e hlk hexp]
          simp [peek, hlk, hexp]
        | false =>
          rw [show distGetLoop now store (k :: ks) acc
                = distGetLoop now store ks (v :: acc) by
              simp [distGetLoop, hlk, hexp]]
          rw [ih store (v :: acc) hks]
          simp [peek, hlk, hexp]

/-- C2: performing the hub's `set` with key k and JSON value v (no ttl) and
then `get` with the single key k — at any later read time — returns exactly v
and leaves the store as `set` left it. -/
theorem set_get_roundtrip (now now2 : Int) (store : Store) (k : String)
    (v : JValue) :
    distGet now2 (distSet now store ⟨k, v, none⟩) [k]
      = (distSet now store ⟨k, v, none⟩, .ok (.val v)) := by
  have h1 : alookup (distSet now store ⟨k, v, none⟩) k
      = some (Cell.item v none) := by
    simp [distSet, ttlTruthy, alookup_aset_self]
  simp [distGet, distGetLoop, h1, expired, collapse]

/-- C3 (amended): a stored item carrying expiration timestamp `expireAt` is
treated as expired by `get` exactly when `expireAt` is nonzero and
`now > expireAt` (strictly): then the single-key `get` returns `null` and
removes the entry; otherwise — including the boundary `now = expireAt` and
items with `expireAt = 0` — it returns the stored value and leaves the entry
in place. -/
theorem ttl_expiry (now e : Int) (store : Store) (k : String) (v : JValue)
    (hlk : alookup store k = some (Cell.item v (some e))) :
    (e ≠ 0 ∧ e < now →
      distGet now store [k] = (aremove store k, .ok (.val .jnull)))
    ∧ (¬(e ≠ 0 ∧ e < now) →
      distGet now store [k] = (store, .ok (.val v))) := by
  constructor
  · rintro ⟨h0, hlt⟩
    have hexp : expired now (some e) = true := by simp [expired, h0, hlt]
    simp [distGet, distGetLoop, hlk, hexp, collapse]
  · intro hne
    have hexp : expired now (some e) = false := by
      by_cases h0 : e = 0
      · simp [expired, h0]
      · have hlt : ¬ e < now := fun hlt => hne ⟨h0, hlt⟩
        simp [expired, h0, hlt]
    simp [distGet, distGetLoop, hlk, hexp, collapse]

/-- Witness for `ttl_expiry` at a concrete store, both branches: at
`now = 11 > 10 = expireAt` the entry is expired (null, removed); at
`now = 10 = expireAt` the stored value is returned and the entry kept. -/
theorem ttl_expiry_witness :
    alookup [("k", Cell.item (JValue.jstr "x") (some 10))] "k"
      = some (Cell.item (JValue.jstr "x") (some 10))
    ∧ distGet 11 [("k", Cell.item (JValue.jstr "x") (some 10))] ["k"]
      = (aremove [("k", Cell.item (JValue.jstr "x") (some 10))] "k",
         .ok (.val .jnull))
    ∧ distGet 10 [("k", Cell.item (JValue.jstr "x") (some 10))] ["k"]
      = ([("k", Cell.item (JValue.jstr "x") (some 10))], .ok (.val (.jstr "x"))) :=
  ⟨rfl,
   (ttl_expiry 11 10 [("k", Cell.item (JValue.jstr "x") (some 10))] "k"
      (JValue.jstr "x") rfl).1 ⟨by decide, by decide⟩,
   (ttl_expiry 10 10 [("k", Cell.item (JValue.jstr "x") (some 10))] "k"
      (JValue.jstr "x") rfl).2 (by simp)⟩

/-- Counterexample to C3 as stated: the claim says an item is expired exactly
when `now >= expireAt`, but at `now = expireAt = 100` (so `now >= expireAt`)
the code's strict test `item.expire < _now()` is false: `get` returns the
stored value and the entry stays in the store, instead of returning null and
removing it. -/
theorem ttl_expiry_boundary_counterexample :
    distGet 100 [("k", Cell.item (JValue.jstr "x") (some 100))] ["k"]
      = ([("k", Cell.item (JValue.jstr "x") (some 100))], .ok (.val (.jstr "x")))
    ∧ (100 : Int) ≥ 100 := ⟨rfl, by decide⟩

/-- C4 (amended): for a `get` request whose requested keys all hold parsable
content: the result collapses positionally — for n > 1 keys an array of
length n whose i-th element is the per-key value of the i-th requested key
(duplicates and order preserved), for exactly one key the bare value, never a
one-element array; the per-key value is `null` for an absent or expired key
and the unwrapped value otherwise. (A key holding unparsable text instead
aborts the whole operation with the `JSON.parse` SyntaxError.) -/
theorem get_positional (now : Int) (store : Store) (keys : List String)
    (h : ∀ k ∈ keys, alookup store k ≠ some Cell.junk) :
    (distGet now store keys).2 = .ok (collapse (keys.map (peek now store)))
    ∧ (keys.map (peek now store)).length = keys.length
    ∧ (1 < keys.length →
        (distGet now store keys).2
          = .ok (.val (.jarr (keys.map (peek now store)))))
    ∧ (∀ k, keys = [k] →
        (distGet now store keys).2 = .ok (.val (peek now store k)))
    ∧ (∀ k, alookup store k = none → peek now store k = .jnull)
    ∧ (∀ k v e, alookup store k = some (Cell.item v e) →
        expired now e = true → peek now store k = .jnull)
    ∧ (∀ k v e, alookup store k = some (Cell.item v e) →
        expired now e = false → peek now store k = v) := by
  have hmain : (distGet now store keys).2
      = .ok (collapse (keys.map (peek now store))) := by
    have hl := distGetLoop_ok now keys store [] h
    rcases hres : distGetLoop now store keys [] with ⟨st, r⟩
    rw [hres] at hl
    cases r with
    | ok rs =>
      simp only [List.reverse_nil, List.nil_append] at hl
      simp only [Except.ok.injEq] at hl
      simp [distGet, hres, hl]
    | error e => simp at hl
  refine ⟨hmain, by simp, ?_, ?_, ?_, ?_, ?_⟩
  · intro hlen
    rw [hmain]
    simp [collapse, hlen]
  · intro k hk
    subst hk
    rw [hmain]
    simp [collapse]
  · intro k hk; simp [peek, hk]
  · intro k v e hk he; simp [peek, hk, he]
  · intro k v e hk he; simp [peek, hk, he]

/-- Witness for `get_positional`: a two-key request against a store holding
one of them returns the positionally aligned two-element array. -/
theorem get_positional_witness :
    (∀ k ∈ ["a", "b"], alookup [("a", Cell.item (JValue.jnum 1) none)] k
      ≠ some Cell.junk)
    ∧ (distGet 7 [("a", Cell.item (JValue.jnum 1) none)] ["a", "b"]).2
      = .ok (.val (.jarr [JValue.jnum 1, JValue.jnull])) :=
  ⟨by
     intro k hk
     simp only [List.mem_cons, List.mem_singleton] at hk
     rcases hk with rfl | rfl | hk
     · simp [alookup]
     · simp [alookup]
     · simp at hk,
   (get_positional 7 [("a", Cell.item (JValue.jnum 1) none)] ["a", "b"]
      (by
        intro k hk
        simp only [List.mem_cons, List.mem_singleton] at hk
        rcases hk with rfl | rfl | hk
        · simp [alookup]
        · simp [alookup]
        · simp at hk)).2.2.1
     (by decide)⟩

/-- Counterexample to C4 as stated: the claim says an unparsable key yields a
null element, but a stored value on which `JSON.parse` throws makes the whole
`_get` call raise the SyntaxError (no array is returned at all). -/
theorem get_junk_counterexample :
    (distGet 5 [("a", Cell.junk)] ["a", "b"]).2 = .error jsonParseError := rfl

end DistHub

namespace LibHub

/-
  Embedding of lib/hub.js: the permission engine `_permitted` (lines
  130-151), the dispatcher `_listener` (lines 69-119) and the operations
  `_set`/`_get`/`_del`/`_clear`/`_getKeys` (raw string storage, no TTL in
  this file's version) and `_listen`/`_unlisten` (lines 194-238). The
  transport layers handled before the parsed request (poll/ready control
  tokens, the `'null'`-to-`'file://'` origin rewrite, the `JSON.parse`
  guard that silently drops unparsable payloads) are upstream of `listener`
  below, which models the path from a successfully parsed request with a
  string `method` field onward.
-/

/-- One entry of the permission table: `{origin, allow}`. The two Booleans
record whether `origin instanceof RegExp` and `allow instanceof Array` hold
for the entry (malformed entries are skipped by `_permitted`); `originTest`
models `entry.origin.test(origin)`. -/
structure PermEntry where
  originIsRegExp : Bool
  allowIsArray : Bool
  originTest : String → Bool
  allow : List String

/-- The fixed method vocabulary of `_permitted`:
`['get', 'set', 'listen', 'del', 'clear', 'getKeys']`. -/
def available : List String := ["get", "set", "listen", "del", "clear", "getKeys"]

/-- The reassignment `if (method === 'unlisten') method = 'listen';` at the
top of `_permitted`. -/
def normalize (m : String) : String := if m = "unlisten" then "listen" else m

/-- Embedding of `CrossStorageHub._permitted` (lib/hub.js lines 130-151):
after normalizing `unlisten` to `listen`, the method must belong to the fixed
vocabulary, and then some entry with a RegExp origin and an Array allow list
must match the origin and list the normalized method. -/
def permitted (perms : List PermEntry) (origin method : String) : Bool :=
  if available.contains (normalize method) then
    perms.any fun e =>
      e.originIsRegExp && e.allowIsArray && e.originTest origin
        && e.allow.contains (normalize method)
  else false

/-- Request parameters; the union of the fields the operations read
(`params.key`, `params.value`, `params.keys`, `params.eventKey`). Values are
carried as the strings localStorage stores (lib/hub.js's `_set` passes
`params.value` straight to `setItem`, which stores its string conversion). -/
structure Params where
  key : String
  value : String
  keys : List String
  eventKey : String

/-- The hub's mutable state: localStorage plus the `_eventListeners` registry.
A registry slot is `true` while it holds a handler and `false` once
`_unlisten` has assigned `null` to it; in both cases the key is present for
the JS `in` operator. -/
structure HubState where
  store : List (String × String)
  listeners : List (String × Bool)

/-- A parsed inbound request `{id, method, params}`. -/
structure Request where
  id : String
  method : String
  params : Params

/-- An outbound response `{id, error, result}` (before serialization). -/
structure Response where
  id : String
  error : Option String
  result : JSVal

/-- The text after the first occurrence of `sep` in the scanned characters,
or `none` when `sep` does not occur (`sep` is non-empty at every use). -/
def dropThroughSep (sep : List Char) : List Char → Option (List Char)
  | [] => none
  | c :: rest =>
    if sep.isPrefixOf (c :: rest) then some ((c :: rest).drop sep.length)
    else dropThroughSep sep rest

/-- The text before the next occurrence of `sep` (all of it when `sep` does
not occur again). -/
def takeUntilSep (sep : List Char) : List Char → List Char
  | [] => []
  | c :: rest =>
    if sep.isPrefixOf (c :: rest) then [] else c :: takeUntilSep sep rest

/-- Embedding of `method = request.method.split('cross-storage:')[1]`
followed by the `if (!method) return;` guard: element 1 of the split — the
text between the end of the first `'cross-storage:'` occurrence and the next
occurrence (undefined when the separator does not occur at all) — kept only
when it is a non-empty string. -/
def extractMethod (s : String) : Option String :=
  match dropThroughSep "cross-storage:".data s.data with
  | none => none
  | some rest =>
    let m := String.mk (takeUntilSep "cross-storage:".data rest)
    if m = "" then none else some m

/-- Dispatch `CrossStorageHub['_' + method](request.params)` for lib/hub.js's
operations. A raised operation error (`_listen`'s duplicate event key; for an
unrecognized method the `TypeError` of calling a non-function) is returned as
`Except.error` with the thrown message; every throwing path throws before
mutating, so an error leaves the state unchanged. -/
def runOp (st : HubState) (method : String) (p : Params) :
    Except String (HubState × JSVal) :=
  if method = "get" then
    .ok (st, collapse (p.keys.map fun k =>
      match alookup st.store k with
      | none => JValue.jnull
      | some s => JValue.jstr s))
  else if method = "set" then
    .ok ({ st with store := aset st.store p.key p.value }, .undef)
  else if method = "del" then
    .ok ({ st with store := p.keys.foldl (fun s k => aremove s k) st.store },
      .undef)
  else if method = "clear" then
    .ok ({ st with store := [] }, .undef)
  else if method = "getKeys" then
    .ok (st, .val (.jarr (st.store.map fun q => JValue.jstr q.1)))
  else if method = "listen" then
    if ahas st.listeners p.eventKey then .error "Can't reuse eventKeys"
    else .ok ({ st with listeners := aset st.listeners p.eventKey true }, .undef)
  else if method = "unlisten" then
    .ok ({ st with listeners := aset st.listeners p.eventKey false }, .undef)
  else .error ("CrossStorageHub._" ++ method ++ " is not a function")

/-- Embedding of the request path of `CrossStorageHub._listener` (lib/hub.js
lines 95-118): extract the method (silently dropping requests without one),
check permissions — a denied request leaves the hub untouched and answers
with exactly `'Invalid permissions for ' + method` — and otherwise execute
the operation under the dispatcher's try/catch. -/
def listener (perms : List PermEntry) (st : HubState) (origin : String)
    (req : Request) : HubState × Option Response :=
  match extractMethod req.method with
  | none => (st, none)
  | some m =>
    if permitted perms origin m then
      match runOp st m req.params with
      | .ok (st2, r) => (st2, some ⟨req.id, none, r⟩)
      | .error e => (st, some ⟨req.id, some e, .undef⟩)
    else
      (st, some ⟨req.id, some ("Invalid permissions for " ++ m), .undef⟩)

/-- Folding the listener over a sequence of inbound (origin, request) pairs:
the hub state after serving them all. -/
def runMsgs (perms : List PermEntry) (st : HubState)
    (msgs : List (String × Request)) : HubState :=
  msgs.foldl (fun s m => (listener perms s m.1 m.2).1) st

/-- C1 (amended): the hub executes the requested operation if and only if the
normalized method (unlisten checked as listen) is in the fixed vocabulary and
some permission entry with a RegExp origin and an Array allow list matches
the origin and lists the normalized method; when the check fails, the hub
state is untouched and the reply's error is exactly
`'Invalid permissions for '` followed by the method name. -/
theorem permission_gate (perms : List PermEntry) (st : HubState)
    (origin m : String) (req : Request)
    (hm : extractMethod req.method = some m) :
    (permitted perms origin m = true ↔
      available.contains (normalize m) = true
      ∧ ∃ e ∈ perms, e.originIsRegExp = true ∧ e.allowIsArray = true
          ∧ e.originTest origin = true ∧ normalize m ∈ e.allow)
    ∧ (permitted perms origin m = false →
        listener perms st origin req
          = (st, some ⟨req.id, some ("Invalid permissions for " ++ m), .undef⟩))
    ∧ (permitted perms origin m = true →
        listener perms st origin req
          = match runOp st m req.params with
            | .ok (st2, r) => (st2, some ⟨req.id, none, r⟩)
            | .error e => (st, some ⟨req.id, some e, .undef⟩)) := by
  refine ⟨?_, ?_, ?_⟩
  · unfold permitted
    by_cases hav : available.contains (normalize m) = true
    · simp only [hav, if_true, List.any_eq_true, Bool.and_eq_true, true_and]
      constructor
      · rintro ⟨e, he, ⟨⟨h1, h2⟩, h3⟩, h4⟩
        exact ⟨e, he, h1, h2, h3, by simpa using h4⟩
      · rintro ⟨e, he, h1, h2, h3, h4⟩
        exact ⟨e, he, ⟨⟨h1, h2⟩, h3⟩, by simpa using h4⟩
    · rw [if_neg hav]
      constructor
      · intro hc; exact absurd hc Bool.false_ne_true
      · rintro ⟨h1, _⟩; exact absurd h1 hav
  · intro hdeny
    simp [listener, hm, hdeny]
  · intro hperm
    simp [listener, hm, hperm]

/-- Witness for `permission_gate`: a request for `cross-storage:del` from an
origin whose only matching entry allows just `get` is denied with the exact
error string and leaves the hub state unchanged. -/
theorem permission_gate_witness :
    extractMethod "cross-storage:del" = some "del"
    ∧ permitted [⟨true, true, fun o => o = "http://a.com", ["get"]⟩]
        "http://a.com" "del" = false
    ∧ listener [⟨true, true, fun o => o = "http://a.com", ["get"]⟩]
        ⟨[("k", "v")], []⟩ "http://a.com" ⟨"9", "cross-storage:del", ⟨"", "", ["k"], ""⟩⟩
        = (⟨[("k", "v")], []⟩, some ⟨"9", some "Invalid permissions for del", .undef⟩) :=
  ⟨rfl, rfl,
   (permission_gate [⟨true, true, fun o => o = "http://a.com", ["get"]⟩]
      ⟨[("k", "v")], []⟩ "http://a.com" "del"
      ⟨"9", "cross-storage:del", ⟨"", "", ["k"], ""⟩⟩ rfl).2.1 rfl⟩

/-- Counterexample to C1 as stated: the claim grants access whenever some
matching entry's allow list contains the method, but for a method outside the
fixed vocabulary (here `foo`) the hub denies the request even though an entry
matching the origin lists `foo` in its allow list. -/
theorem permission_gate_counterexample :
    listener [⟨true, true, fun _ => true, ["foo"]⟩] ⟨[], []⟩
      "http://client.example.com" ⟨"1", "cross-storage:foo", ⟨"", "", [], ""⟩⟩
      = (⟨[], []⟩, some ⟨"1", some "Invalid permissions for foo", .undef⟩)
    ∧ (fun (_ : String) => true) "http://client.example.com" = true
    ∧ "foo" ∈ ["foo"] := ⟨rfl, rfl, by simp⟩

/-- C9: the permission check is `false` for every method whose normalized
form (unlisten checked as listen) is outside the fixed vocabulary, whatever
the permission table contains; and a table whose entries all have a
non-RegExp origin or a non-Array allow list grants nothing. -/
theorem permitted_closed_vocab (perms : List PermEntry) (origin m : String) :
    (available.contains (normalize m) = false →
      permitted perms origin m = false)
    ∧ ((∀ e ∈ perms, e.originIsRegExp = false ∨ e.allowIsArray = false) →
      permitted perms origin m = false) := by
  constructor
  · intro h
    unfold permitted
    rw [if_neg (fun hc => Bool.false_ne_true (h ▸ hc))]
  · intro h
    unfold permitted
    by_cases hav : available.contains (normalize m) = true
    · rw [if_pos hav, List.any_eq_false]
      intro e he
      rcases h e he with h1 | h1 <;> simp [h1]
    · rw [if_neg hav]

/-- Witness for `permitted_closed_vocab`: the unrecognized method `remove` is
denied even when an all-matching entry lists it, and a table whose single
entry has a non-RegExp origin grants nothing, even for `get`. -/
theorem permitted_closed_vocab_witness :
    available.contains (normalize "remove") = false
    ∧ permitted [⟨true, true, fun _ => true, ["remove"]⟩] "http://x" "remove"
        = false
    ∧ (∀ e ∈ [(⟨false, true, fun _ => true, ["get"]⟩ : PermEntry)],
        e.originIsRegExp = false ∨ e.allowIsArray = false)
    ∧ permitted [⟨false, true, fun _ => true, ["get"]⟩] "http://x" "get"
        = false :=
  ⟨rfl,
   (permitted_closed_vocab [⟨true, true, fun _ => true, ["remove"]⟩]
      "http://x" "remove").1 rfl,
   by intro e he; simp only [List.mem_singleton] at he; subst he; left; rfl,
   (permitted_closed_vocab [⟨false, true, fun _ => true, ["get"]⟩]
      "http://x" "get").2
     (by intro e he; simp only [List.mem_singleton] at he; subst he; left; rfl)⟩

/-- A successful operation never evicts a key from the event-listener
registry (only `_listen` and `_unlisten` touch it, and both assign to a slot
without deleting any). -/
theorem ahas_listeners_runOp (st : HubState) (m : String) (p : Params)
    (st2 : HubState) (r : JSVal) (k : String)
    (hok : runOp st m p = .ok (st2, r)) (hk : ahas st.listeners k = true) :
    ahas st2.listeners k = true := by
  unfold runOp at hok
  split_ifs at hok with h1 h2 h3 h4 h5 h6 h7 h8
  all_goals
    simp only [Except.ok.injEq, Prod.mk.injEq] at hok
  all_goals
    obtain ⟨hst, _⟩ := hok
  all_goals
    subst hst
  all_goals
    first
      | exact hk
      | exact ahas_aset st.listeners p.eventKey k _ hk

/-- The dispatcher never evicts a key from the event-listener registry:
denied, dropped, failed and successful requests all preserve registered
event keys. -/
theorem ahas_listeners_listener (perms : List PermEntry) (st : HubState)
    (origin : String) (req : Request) (k : String)
    (hk : ahas st.listeners k = true) :
    ahas (listener perms st origin req).1.listeners k = true := by
  unfold listener
  cases hm : extractMethod req.method with
  | none => simpa using hk
  | some m =>
    by_cases hperm : permitted perms origin m = true
    · simp only [hperm, if_true]
      cases hok : runOp st m req.params with
      | ok pr =>
        obtain ⟨st2, r⟩ := pr
        simpa using ahas_listeners_runOp st m req.params st2 r k hok hk
      | error e => simpa using hk
    · simp only [Bool.not_eq_true] at hperm
      simpa [hperm] using hk

/-- Registered event keys survive any sequence of served messages. -/
theorem ahas_listeners_runMsgs (perms : List PermEntry)
    (msgs : List (String × Request)) :
    ∀ (st : HubState) (k : String), ahas st.listeners k = true →
      ahas (runMsgs perms st msgs).listeners k = true := by
  induction msgs with
  | nil => intro st k hk; simpa [runMsgs] using hk
  | cons msg rest ih =>
    intro st k hk
    rw [show runMsgs perms st (msg :: rest)
          = runMsgs perms (listener perms st msg.1 msg.2).1 rest by
        simp [runMsgs]]
    exact ih (listener perms st msg.1 msg.2).1 k
      (ahas_listeners_listener perms st msg.1 msg.2 k hk)

/-- C10: once an event key is registered (as a successful `listen` leaves
it), a `listen` for the same key fails with `"Can't reuse eventKeys"`; the
key remains registered across any sequence of later requests — in
particular, `unlisten` assigns `null` (`false` in the model) to the slot
without deleting the key — so the failure persists for the hub's lifetime. -/
theorem listen_reuse_forever (perms : List PermEntry) (st : HubState)
    (k : String) (p : Params) (msgs : List (String × Request))
    (hp : p.eventKey = k) (hk : ahas st.listeners k = true) :
    runOp st "listen" p = .error "Can't reuse eventKeys"
    ∧ ahas (runMsgs perms st msgs).listeners k = true
    ∧ (∀ st2 r, runOp st "unlisten" p = .ok (st2, r) →
        alookup st2.listeners k = some false ∧ ahas st2.listeners k = true)
    ∧ (∀ st0 st2 r, runOp (st0 : HubState) "listen" p = .ok (st2, r) →
        ahas st2.listeners k = true) := by
  subst hp
  refine ⟨?_, ahas_listeners_runMsgs perms msgs st p.eventKey hk, ?_, ?_⟩
  · have hbr : runOp st "listen" p
        = if ahas st.listeners p.eventKey then .error "Can't reuse eventKeys"
          else .ok ({ st with listeners := aset st.listeners p.eventKey true },
            .undef) := rfl
    rw [hbr, if_pos hk]
  · intro st2 r hok
    have hbr : runOp st "unlisten" p
        = .ok ({ st with listeners := aset st.listeners p.eventKey false },
          JSVal.undef) := rfl
    rw [hbr] at hok
    simp only [Except.ok.injEq, Prod.mk.injEq] at hok
    obtain ⟨hst, _⟩ := hok
    subst hst
    exact ⟨alookup_aset_self st.listeners p.eventKey false,
      ahas_aset_self st.listeners p.eventKey false⟩
  · intro st0 st2 r hok
    have hbr : runOp st0 "listen" p
        = if ahas st0.listeners p.eventKey then .error "Can't reuse eventKeys"
          else .ok ({ st0 with listeners := aset st0.listeners p.eventKey true },
            .undef) := rfl
    rw [hbr] at hok
    by_cases hk0 : ahas st0.listeners p.eventKey = true
    · rw [if_pos hk0] at hok
      exact Except.noConfusion hok
    · rw [if_neg hk0] at hok
      simp only [Except.ok.injEq, Prod.mk.injEq] at hok
      obtain ⟨hst, _⟩ := hok
      subst hst
      exact ahas_aset_self st0.listeners p.eventKey true

/-- Witness for `listen_reuse_forever`: with `evt` registered, another
`listen` for `evt` fails with the exact message, and the registration
survives a served `unlisten` request for `evt`. -/
theorem listen_reuse_forever_witness :
    ahas (HubState.mk [] [("evt", true)]).listeners "evt" = true
    ∧ runOp ⟨[], [("evt", true)]⟩ "listen" ⟨"", "", [], "evt"⟩
        = .error "Can't reuse eventKeys"
    ∧ ahas (runMsgs [⟨true, true, fun _ => true, ["listen"]⟩]
        ⟨[], [("evt", true)]⟩
        [("http://x", ⟨"1", "cross-storage:unlisten", ⟨"", "", [], "evt"⟩⟩)]).listeners
        "evt" = true :=
  ⟨rfl,
   (listen_reuse_forever [⟨true, true, fun _ => true, ["listen"]⟩]
      ⟨[], [("evt", true)]⟩ "evt" ⟨"", "", [], "evt"⟩
      [("http://x", ⟨"1", "cross-storage:unlisten", ⟨"", "", [], "evt"⟩⟩)]
      rfl rfl).1,
   (listen_reuse_forever [⟨true, true, fun _ => true, ["listen"]⟩]
      ⟨[], [("evt", true)]⟩ "evt" ⟨"", "", [], "evt"⟩
      [("http://x", ⟨"1", "cross-storage:unlisten", ⟨"", "", [], "evt"⟩⟩)]
      rfl rfl).2.1⟩

end LibHub

namespace Client

/-
  Embedding of client.js v0.3.3 (`CrossStorageClient`): the client state and
  the event-driven behavior of `onConnect` (lines 134-144), `close` (lines
  208-223), `_request` (lines 328-377) and the window-message listener
  installed by `_installListener` (lines 235-271), as a step function
  `ClientState → Event → ClientState × List Action`. The emitted `Action`s
  are the observable effects: settling a promise (resolve/reject), resolving
  an `onConnect` waiter, returning an already-rejected promise from
  `_request` on a closed client, and posting a request message to the hub.

  Timers: `setTimeout`'s handle is modelled by the `timerActive` flag of a
  pending entry; `clearTimeout` sets it to `false`, and — as in the JS
  runtime, where a cleared timer never fires — a `timeoutFire` event for a
  cleared (or unknown) timer is a no-op. The `_requests.connect` slot, which
  the source keeps in the same `_requests` object, is modelled as the
  separate field `connectSlot` holding the token of the latest `onConnect`
  caller's resolver.
-/

/-- One pending entry of `_requests`: the closure stored under the request id
captures the request's method (for the timeout message) and its timeout
handle (`timerActive` is whether `clearTimeout` has not yet run). -/
structure Pending where
  method : String
  timerActive : Bool

/-- The client's mutable state (`_origin`, `_id`, `_connected`, `_closed`,
`_count`, `_requests`). -/
structure ClientState where
  origin : String
  uuid : String
  connected : Bool
  closed : Bool
  count : Nat
  connectSlot : Option Nat
  requests : List (String × Pending)

/-- The data of an inbound window message: the bare `'ready'` control token,
a parsed response envelope `{id?, error?, result?}`, or text on which
`JSON.parse` throws (the listener then aborts after the connected-flip). -/
inductive MsgData where
  | ready
  | response (id : Option String) (error : Option String) (result : JSVal)
  | junk

/-- The events a client reacts to: public calls (`onConnect`, `close`, the
generic `_request` backing every typed operation), expiry of a pending
request's timer, and an inbound window message with its sender origin. Each
`onConnect` call carries a caller token identifying the promise it returns. -/
inductive Event where
  | onConnect (token : Nat)
  | close
  | request (method : String)
  | timeoutFire (id : String)
  | message (origin : String) (data : MsgData)

/-- The observable effects of a step. -/
inductive Action where
  | resolveNow (token : Nat)
  | resolveConnect (token : Nat)
  | rejectNewRequest (msg : String)
  | post (id : String) (method : String)
  | resolve (id : String) (result : JSVal)
  | reject (id : String) (msg : String)

/-- Truthiness of an optional string (`undefined`/absent and `''` are
falsy), used for `if (!response.id)` and `if (err)`. -/
def truthyStr : Option String → Bool
  | none => false
  | some s => s != ""

/-- The settle action the stored request callback performs:
`if (err) return reject(new Error(err)); resolve(result);`. -/
def settleAction (id : String) (err : Option String) (res : JSVal) : Action :=
  match err with
  | some m => if m = "" then .resolve id res else .reject id m
  | none => .resolve id res

/-- One step of the client. Mirrors, per event:
`onConnect` (immediate resolution when connected, else overwriting
`_requests.connect`); `close` (sets `_connected = false`, `_closed = true`);
`_request` (immediately-rejected promise when closed, else increment
`_count`, register the pending entry under `uuid + ':' + count` with a live
timer, and post the envelope); the timeout callback (guarded by the entry's
existence: deletes the entry and rejects with
`'Timeout: could not perform ' + method`); and the message listener (drop
when closed or from a foreign origin; first accepted message flips
`connected` and resolves the queued connect waiter; `'ready'` and junk stop
there; a response with truthy id matching a pending entry runs its callback —
`clearTimeout` plus settle — without deleting the registry entry). -/
def step (s : ClientState) (e : Event) : ClientState × List Action :=
  match e with
  | .onConnect t =>
    if s.connected then (s, [.resolveNow t])
    else ({ s with connectSlot := some t }, [])
  | .close =>
    ({ s with connected := false, closed := true }, [])
  | .request m =>
    if s.closed then (s, [.rejectNewRequest "CrossStorageClient has closed"])
    else
      let c := s.count + 1
      let id := s.uuid ++ ":" ++ toString c
      ({ s with count := c, requests := aset s.requests id ⟨m, true⟩ },
        [.post id m])
  | .timeoutFire id =>
    match alookup s.requests id with
    | none => (s, [])
    | some p =>
      if p.timerActive then
        ({ s with requests := aremove s.requests id },
          [.reject id ("Timeout: could not perform " ++ p.method)])
      else (s, [])
  | .message origin data =>
    if s.closed then (s, [])
    else if origin = s.origin then
      let s1 : ClientState :=
        if s.connected then s
        else { s with connected := true, connectSlot := none }
      let as1 : List Action :=
        if s.connected then []
        else
          match s.connectSlot with
          | some t => [.resolveConnect t]
          | none => []
      match data with
      | .ready => (s1, as1)
      | .junk => (s1, as1)
      | .response rid err res =>
        match rid with
        | none => (s1, as1)
        | some i =>
          if i = "" then (s1, as1)
          else
            match alookup s1.requests i with
            | none => (s1, as1)
            | some p =>
              ({ s1 with requests := aset s1.requests i ⟨p.method, false⟩ },
                as1 ++ [settleAction i err res])
    else (s, [])

/-- Running a sequence of events, accumulating every emitted action. -/
def run (s : ClientState) : List Event → ClientState × List Action
  | [] => (s, [])
  | e :: rest =>
    let this := step s e
    let next := run this.1 rest
    (next.1, this.2 ++ next.2)

/-- Actions that settle the pending request with the given id (its promise's
resolve or reject). -/
def isSettle (id : String) : Action → Bool
  | .resolve i _ => i == id
  | .reject i _ => i == id
  | _ => false

/-- The number of settle actions for the given id in an action list. -/
def countSettles (id : String) (acts : List Action) : Nat :=
  acts.countP (isSettle id)

/-- The request callback always settles its own request (with a reject when a
non-empty error string is present, a resolve otherwise). -/
theorem isSettle_settleAction (i : String) (err : Option String) (res : JSVal) :
    isSettle i (settleAction i err res) = true := by
  cases err with
  | none => simp [settleAction, isSettle]
  | some m => by_cases hm : m = "" <;> simp [settleAction, isSettle, hm]

/-- The request callback never resolves a connect waiter. -/
theorem settleAction_ne_resolveConnect (i : String) (err : Option String)
    (res : JSVal) (t : Nat) : settleAction i err res ≠ .resolveConnect t := by
  cases err with
  | none => simp [settleAction]
  | some m => by_cases hm : m = "" <;> simp [settleAction, hm]

/-- C5 (amended): for a connected, non-closed client, a response envelope
from the hub origin whose (truthy) id matches a pending request runs that
request's stored callback: the timeout is cancelled (the entry's timer goes
dead) and the caller is settled — rejected with the response's error when it
is a non-empty string, resolved with the response's result otherwise — but
the registry entry is NOT removed (only its timer flag changes); a response
whose id matches no pending entry leaves the state unchanged and settles
nothing. -/
theorem response_settles (s : ClientState) (i : String) (p : Pending)
    (err : Option String) (res : JSVal)
    (hconn : s.connected = true) (hclosed : s.closed = false)
    (hi : ¬ i = "") :
    (alookup s.requests i = some p →
      step s (.message s.origin (.response (some i) err res))
        = ({ s with requests := aset s.requests i ⟨p.method, false⟩ },
           [settleAction i err res])
      ∧ alookup (aset s.requests i ⟨p.method, false⟩) i
          = some ⟨p.method, false⟩)
    ∧ (alookup s.requests i = none →
      step s (.message s.origin (.response (some i) err res)) = (s, [])) := by
  constructor
  · intro hlk
    refine ⟨?_, alookup_aset_self s.requests i ⟨p.method, false⟩⟩
    simp [step, hconn, hclosed, hi, hlk]
  · intro hlk
    simp [step, hconn, hclosed, hi, hlk]

/-- Witness for `response_settles`: both the matching and the non-matching
branch at a concrete client state. -/
theorem response_settles_witness :
    (ClientState.mk "http://hub" "u" true false 1 none
        [("u:1", ⟨"get", true⟩)]).connected = true
    ∧ alookup [("u:1", Pending.mk "get" true)] "u:1" = some ⟨"get", true⟩
    ∧ step ⟨"http://hub", "u", true, false, 1, none, [("u:1", ⟨"get", true⟩)]⟩
        (.message "http://hub" (.response (some "u:1") none (.val (.jnum 3))))
        = (⟨"http://hub", "u", true, false, 1, none, [("u:1", ⟨"get", false⟩)]⟩,
           [.resolve "u:1" (.val (.jnum 3))])
    ∧ step ⟨"http://hub", "u", true, false, 1, none, [("u:1", ⟨"get", true⟩)]⟩
        (.message "http://hub" (.response (some "zz") none (.val (.jnum 3))))
        = (⟨"http://hub", "u", true, false, 1, none, [("u:1", ⟨"get", true⟩)]⟩,
           []) :=
  ⟨rfl, rfl,
   ((response_settles ⟨"http://hub", "u", true, false, 1, none,
        [("u:1", ⟨"get", true⟩)]⟩ "u:1" ⟨"get", true⟩ none (.val (.jnum 3))
        rfl rfl (by decide)).1 rfl).1,
   (response_settles ⟨"http://hub", "u", true, false, 1, none,
        [("u:1", ⟨"get", true⟩)]⟩ "zz" ⟨"get", true⟩ none (.val (.jnum 3))
        rfl rfl (by decide)).2 rfl⟩

/-- Counterexample to C5 as stated: the claim says a matching response
removes the entry from the registry, but after the response is processed the
entry is still present (with its timer cleared) — the response path of this
client version (v0.3.3) never deletes from `_requests`. -/
theorem response_keeps_entry_counterexample :
    (step ⟨"http://hub", "u", true, false, 1, none, [("u:1", ⟨"get", true⟩)]⟩
        (.message "http://hub" (.response (some "u:1") none (.val .jnull)))).1.requests
      = [("u:1", ⟨"get", false⟩)]
    ∧ countSettles "u:1"
        (step ⟨"http://hub", "u", true, false, 1, none, [("u:1", ⟨"get", true⟩)]⟩
          (.message "http://hub" (.response (some "u:1") none (.val .jnull)))).2
      = 1 := ⟨rfl, rfl⟩

/-- C6: from a state with a live pending request, the timeout and the
matching response race cleanly: if the timeout fires first it removes the
registry entry and rejects with `'Timeout: could not perform ' + method`, and
the response arriving second is a complete no-op; if the response arrives
first it settles the caller exactly once, and the (cleared) timeout firing
second is a complete no-op. Either way the caller is settled exactly once. -/
theorem settle_exactly_once (s : ClientState) (i m : String)
    (err : Option String) (res : JSVal)
    (hconn : s.connected = true) (hclosed : s.closed = false)
    (hp : alookup s.requests i = some ⟨m, true⟩) (hi : ¬ i = "") :
    (step s (.timeoutFire i)).2
      = [.reject i ("Timeout: could not perform " ++ m)]
    ∧ alookup (step s (.timeoutFire i)).1.requests i = none
    ∧ step (step s (.timeoutFire i)).1
        (.message s.origin (.response (some i) err res))
        = ((step s (.timeoutFire i)).1, [])
    ∧ countSettles i
        (step s (.message s.origin (.response (some i) err res))).2 = 1
    ∧ step (step s (.message s.origin (.response (some i) err res))).1
        (.timeoutFire i)
        = ((step s (.message s.origin (.response (some i) err res))).1, []) := by
  have htf : step s (.timeoutFire i)
      = ({ s with requests := aremove s.requests i },
         [.reject i ("Timeout: could not perform " ++ m)]) := by
    simp [step, hp]
  have hrm : alookup (aremove s.requests i) i = none := by
    rw [alookup_aremove]; simp
  have hresp : step s (.message s.origin (.response (some i) err res))
      = ({ s with requests := aset s.requests i ⟨m, false⟩ },
         [settleAction i err res]) := by
    simp [step, hconn, hclosed, hi, hp]
  refine ⟨by rw [htf], by rw [htf]; exact hrm, ?_, ?_, ?_⟩
  · rw [htf]
    simp [step, hconn, hclosed, hi, hrm]
  · rw [hresp]
    simp [countSettles, isSettle_settleAction]
  · rw [hresp]
    simp [step, alookup_aset_self]

/-- Witness for `settle_exactly_once` at a concrete pending request. -/
theorem settle_exactly_once_witness :
    alookup [("u:1", Pending.mk "set" true)] "u:1" = some ⟨"set", true⟩
    ∧ (step ⟨"http://hub", "u", true, false, 1, none, [("u:1", ⟨"set", true⟩)]⟩
        (.timeoutFire "u:1")).2
        = [.reject "u:1" "Timeout: could not perform set"]
    ∧ countSettles "u:1"
        (step ⟨"http://hub", "u", true, false, 1, none, [("u:1", ⟨"set", true⟩)]⟩
          (.message "http://hub"
            (.response (some "u:1") (some "boom") .undef))).2 = 1 :=
  ⟨rfl,
   (settle_exactly_once ⟨"http://hub", "u", true, false, 1, none,
      [("u:1", ⟨"set", true⟩)]⟩ "u:1" "set" (some "boom") .undef
      rfl rfl rfl (by decide)).1,
   (settle_exactly_once ⟨"http://hub", "u", true, false, 1, none,
      [("u:1", ⟨"set", true⟩)]⟩ "u:1" "set" (some "boom") .undef
      rfl rfl rfl (by decide)).2.2.2.1⟩

/-- No step ever resets a closed client's `_closed` flag. -/
theorem closed_step (s : ClientState) (e : Event) (h : s.closed = true) :
    (step s e).1.closed = true := by
  cases e with
  | onConnect t => by_cases hc : s.connected = true <;> simp [step, hc, h]
  | close => simp [step]
  | request m => simp [step, h]
  | timeoutFire i =>
    rcases hlk : alookup s.requests i with _ | p
    · simp [step, hlk, h]
    · by_cases ht : p.timerActive = true <;> simp [step, hlk, ht, h]
  | message o data => simp [step, h]

/-- C7: `close()` sets the closed flag; once closed, the flag survives every
later event sequence (it is never reset), and a request issued at any later
point returns the immediately-rejected closed-client promise, changes no
state, and posts nothing to the hub. -/
theorem closed_terminal (s : ClientState) (es : List Event) (m : String)
    (h : s.closed = true) :
    (∀ s0 : ClientState, (step s0 Event.close).1.closed = true)
    ∧ (run s es).1.closed = true
    ∧ step (run s es).1 (.request m)
        = ((run s es).1,
           [.rejectNewRequest "CrossStorageClient has closed"]) := by
  have hrun : ∀ (es1 : List Event) (s1 : ClientState), s1.closed = true →
      (run s1 es1).1.closed = true := by
    intro es1
    induction es1 with
    | nil => intro s1 h1; simpa [run] using h1
    | cons e rest ih =>
      intro s1 h1
      rw [show run s1 (e :: rest) = ((run (step s1 e).1 rest).1,
            (step s1 e).2 ++ (run (step s1 e).1 rest).2) by simp [run]]
      exact ih (step s1 e).1 (closed_step s1 e h1)
  refine ⟨fun s0 => by simp [step], hrun es s h, ?_⟩
  simp [step, hrun es s h]

/-- Witness for `closed_terminal`: a concrete closed client, a nonempty
event sequence, and a rejected request at its end. -/
theorem closed_terminal_witness :
    (ClientState.mk "http://hub" "u" false true 0 none []).closed = true
    ∧ (run ⟨"http://hub", "u", false, true, 0, none, []⟩
        [.message "http://hub" .ready, .onConnect 0]).1.closed = true
    ∧ step (run ⟨"http://hub", "u", false, true, 0, none, []⟩
        [.message "http://hub" .ready, .onConnect 0]).1 (.request "get")
        = ((run ⟨"http://hub", "u", false, true, 0, none, []⟩
            [.message "http://hub" .ready, .onConnect 0]).1,
           [.rejectNewRequest "CrossStorageClient has closed"]) :=
  ⟨rfl,
   (closed_terminal ⟨"http://hub", "u", false, true, 0, none, []⟩
      [.message "http://hub" .ready, .onConnect 0] "get" rfl).2.1,
   (closed_terminal ⟨"http://hub", "u", false, true, 0, none, []⟩
      [.message "http://hub" .ready, .onConnect 0] "get" rfl).2.2⟩

/-- C8 (amended): `onConnect` on an already-connected client returns an
immediately-resolved promise; otherwise it stores its resolver in the single
`_requests.connect` slot, overwriting any earlier waiter, and when the first
accepted message flips `connected` exactly the slot's current (most recent)
caller is resolved; a `resolveConnect` for a token is only ever emitted while
that token currently occupies the slot, so a caller whose slot entry was
overwritten is never resolved. -/
theorem onconnect_behavior (s : ClientState) (t : Nat) :
    (s.connected = true → step s (.onConnect t) = (s, [.resolveNow t]))
    ∧ (s.connected = false →
        step s (.onConnect t) = ({ s with connectSlot := some t }, []))
    ∧ (∀ e, Action.resolveConnect t ∈ (step s e).2 →
        s.connectSlot = some t ∧ s.connected = false)
    ∧ (s.connected = false → s.closed = false → s.connectSlot = some t →
        step s (.message s.origin .ready)
          = ({ s with connected := true, connectSlot := none },
             [.resolveConnect t])) := by
  refine ⟨fun hc => by simp [step, hc], fun hc => by simp [step, hc], ?_, ?_⟩
  · intro e hmem
    cases e with
    | onConnect t2 =>
      by_cases hc : s.connected = true <;> simp [step, hc] at hmem
    | close => simp [step] at hmem
    | request m1 =>
      by_cases hc : s.closed = true <;> simp [step, hc] at hmem
    | timeoutFire i =>
      rcases hlk : alookup s.requests i with _ | p
      · simp [step, hlk] at hmem
      · by_cases ht : p.timerActive = true <;> simp [step, hlk, ht] at hmem
    | message o data =>
      by_cases hcl : s.closed = true
      · simp [step, hcl] at hmem
      · by_cases ho : o = s.origin
        · by_cases hc : s.connected = true
          · exfalso
            cases data with
            | ready => simp [step, hcl, ho, hc] at hmem
            | junk => simp [step, hcl, ho, hc] at hmem
            | response rid err res =>
              rcases rid with _ | i
              · simp [step, hcl, ho, hc] at hmem
              · by_cases hi : i = ""
                · simp [step, hcl, ho, hc, hi] at hmem
                · rcases hlk : alookup s.requests i with _ | p
                  · simp [step, hcl, ho, hc, hi, hlk] at hmem
                  · simp [step, hcl, ho, hc, hi, hlk] at hmem
                    exact settleAction_ne_resolveConnect i err res t hmem.symm
          · have hcf : s.connected = false := by
              simpa [Bool.not_eq_true] using hc
            rcases hslot : s.connectSlot with _ | t0
            · exfalso
              cases data with
              | ready => simp [step, hcl, ho, hcf, hslot] at hmem
              | junk => simp [step, hcl, ho, hcf, hslot] at hmem
              | response rid err res =>
                rcases rid with _ | i
                · simp [step, hcl, ho, hcf, hslot] at hmem
                · by_cases hi : i = ""
                  · simp [step, hcl, ho, hcf, hslot, hi] at hmem
                  · rcases hlk : alookup s.requests i with _ | p
                    · simp [step, hcl, ho, hcf, hslot, hi, hlk] at hmem
                    · simp [step, hcl, ho, hcf, hslot, hi, hlk] at hmem
                      exact settleAction_ne_resolveConnect i err res t hmem.symm
            · have ht0 : t = t0 := by
                cases data with
                | ready => simpa [step, hcl, ho, hcf, hslot] using hmem
                | junk => simpa [step, hcl, ho, hcf, hslot] using hmem
                | response rid err res =>
                  rcases rid with _ | i
                  · simpa [step, hcl, ho, hcf, hslot] using hmem
                  · by_cases hi : i = ""
                    · simpa [step, hcl, ho, hcf, hslot, hi] using hmem
                    · rcases hlk : alookup s.requests i with _ | p
                      · simpa [step, hcl, ho, hcf, hslot, hi, hlk] using hmem
                      · simp [step, hcl, ho, hcf, hslot, hi, hlk] at hmem
                        rcases hmem with h1 | h1
                        · exact h1
                        · exact absurd h1.symm
                            (settleAction_ne_resolveConnect i err res t)
              exact ⟨congrArg some ht0.symm, hcf⟩
        · simp [step, hcl, ho] at hmem
  · intro hcf hcl hslot
    simp [step, hcf, hcl, hslot]

/-- Witness for `onconnect_behavior`: a concrete unconnected client whose
slot holds token 7 resolves exactly token 7 on the first accepted message;
the same client connected resolves an `onConnect` immediately. -/
theorem onconnect_behavior_witness :
    (ClientState.mk "http://hub" "u" false false 0 (some 7) []).connected
      = false
    ∧ step ⟨"http://hub", "u", false, false, 0, some 7, []⟩
        (.message "http://hub" .ready)
        = (⟨"http://hub", "u", true, false, 0, none, []⟩,
           [.resolveConnect 7])
    ∧ step ⟨"http://hub", "u", true, false, 0, none, []⟩ (.onConnect 3)
        = (⟨"http://hub", "u", true, false, 0, none, []⟩, [.resolveNow 3]) :=
  ⟨rfl,
   (onconnect_behavior ⟨"http://hub", "u", false, false, 0, some 7, []⟩
      7).2.2.2 rfl rfl rfl,
   (onconnect_behavior ⟨"http://hub", "u", true, false, 0, none, []⟩ 3).1 rfl⟩

/-- Counterexample to C8 as stated: the claim says every caller that invoked
`onConnect` before connection is resolved when `connected` flips true, but
after two pre-connection `onConnect` calls (tokens 0 and 1) the first
accepted message resolves only the most recent caller — token 0's promise is
never resolved, because `client._requests.connect = resolve` overwrote its
slot. -/
theorem onconnect_overwrite_counterexample :
    (run ⟨"http://hub", "u", false, false, 0, none, []⟩
        [.onConnect 0, .onConnect 1, .message "http://hub" .ready]).2
      = [.resolveConnect 1]
    ∧ Action.resolveConnect 0 ∉ [Action.resolveConnect 1] :=
  ⟨rfl, by simp⟩

end Client

end CrossStorage
